import Mathlib

/-!
Verification development for the IC10 hash-table generation pipeline.

The repository has two source files:

* `dev/extractor/StationeersDataExtractor/generate_hashes.py` — reads the
  game's `english.xml`, builds a dict `d` of `Key → Value` from the
  `./Things/RecordThing` elements, and writes `./output/stationpedia.txt`
  with one line per identifier (sorted): quoted identifier, signed CRC-32
  in decimal, unsigned CRC-32 in `0x` hex, and the quoted raw display value.
* `tools/update_device_hashes.py` — reads `Stationpedia.json`, builds
  `device_map : PrefabName → (PrefabHash, display_name)` and
  `hash_to_name : PrefabHash → display_name`, and writes a Rust source file
  with the two static maps `DEVICE_NAME_TO_HASH` and `HASH_TO_DISPLAY_NAME`.

The definitions below are shallow embeddings of those scripts, with Python
semantics made explicit: dicts become insertion-ordered association lists
with in-place update (`dinsert`), `sorted()` becomes a stable insertion
sort over code-point lexicographic order, `str.replace`/`str.strip` are
implemented character-by-character, and `zlib.crc32` is the standard
bit-reflected CRC-32/IEEE algorithm (polynomial `0xEDB88320`, initial and
final value `0xFFFFFFFF`) that the zlib library implements.
-/

set_option maxRecDepth 20000

/-! ### Python dict model

A Python dict preserves insertion order; assigning to an existing key
replaces the value in place, assigning to a fresh key appends. -/

/-- Python dict assignment `m[k] = v`: replace in place, or append. -/
def dinsert {α β : Type} [DecidableEq α] (k : α) (v : β) :
    List (α × β) → List (α × β)
  | [] => [(k, v)]
  | (k2, v2) :: rest =>
    if k = k2 then (k, v) :: rest else (k2, v2) :: dinsert k v rest

/-- Python dict lookup `m[k]` (first — and, keys being unique, only —
binding of `k`). -/
def dget {α β : Type} [DecidableEq α] (m : List (α × β)) (k : α) : Option β :=
  match m with
  | [] => none
  | (k2, v) :: rest => if k2 = k then some v else dget rest k

/-- Python `m.keys()` in insertion order. -/
def keys {α β : Type} (m : List (α × β)) : List α := m.map Prod.fst

theorem keys_dinsert {α β : Type} [DecidableEq α] (k : α) (v : β)
    (m : List (α × β)) :
    keys (dinsert k v m) = if k ∈ keys m then keys m else keys m ++ [k] := by
  induction m with
  | nil => simp [dinsert, keys]
  | cons p rest ih =>
    obtain ⟨k2, v2⟩ := p
    by_cases hk : k = k2
    · subst hk
      simp [dinsert, keys]
    · simp only [dinsert, if_neg hk, keys, List.map_cons] at ih ⊢
      rw [ih]
      by_cases hm : k ∈ List.map Prod.fst rest
      · rw [if_pos hm, if_pos (List.mem_cons_of_mem _ hm)]
      · rw [if_neg hm, if_neg (by simp [hk, hm]), List.cons_append]

theorem mem_keys_dinsert_self {α β : Type} [DecidableEq α] (k : α) (v : β)
    (m : List (α × β)) : k ∈ keys (dinsert k v m) := by
  rw [keys_dinsert]
  split
  · assumption
  · simp

theorem mem_keys_dinsert_of_mem {α β : Type} [DecidableEq α] {a k : α} (v : β)
    {m : List (α × β)} (h : a ∈ keys m) : a ∈ keys (dinsert k v m) := by
  rw [keys_dinsert]
  split <;> simp [h]

theorem mem_keys_dinsert {α β : Type} [DecidableEq α] {a k : α} {v : β}
    {m : List (α × β)} (h : a ∈ keys (dinsert k v m)) :
    a = k ∨ a ∈ keys m := by
  rw [keys_dinsert] at h
  split at h
  · exact Or.inr h
  · rcases List.mem_append.mp h with h | h
    · exact Or.inr h
    · simp at h
      exact Or.inl h

theorem nodup_keys_dinsert {α β : Type} [DecidableEq α] (k : α) (v : β)
    {m : List (α × β)} (h : (keys m).Nodup) : (keys (dinsert k v m)).Nodup := by
  rw [keys_dinsert]
  split
  · exact h
  · next hk => simpa using List.Nodup.append h (by simp) (by simpa using hk)

theorem length_dinsert_of_mem {α β : Type} [DecidableEq α] {k : α} (v : β)
    {m : List (α × β)} (h : k ∈ keys m) :
    (dinsert k v m).length = m.length := by
  induction m with
  | nil => simp [keys] at h
  | cons p rest ih =>
    obtain ⟨k2, v2⟩ := p
    by_cases hk : k = k2
    · subst hk
      simp [dinsert]
    · simp only [keys, List.map_cons, List.mem_cons] at h
      rcases h with h | h


      · exact absurd h hk
      · simp [dinsert, if_neg hk, ih h]

theorem length_dinsert_of_not_mem {α β : Type} [DecidableEq α] {k : α} (v : β)
    {m : List (α × β)} (h : k ∉ keys m) :
    (dinsert k v m).length = m.length + 1 := by
  induction m with
  | nil => simp [dinsert]
  | cons p rest ih =>
    obtain ⟨k2, v2⟩ := p
    simp only [keys, List.map_cons, List.mem_cons, not_or] at h
    simp [dinsert, if_neg h.1, ih h.2]

theorem dget_dinsert_self {α β : Type} [DecidableEq α] (k : α) (v : β)
    (m : List (α × β)) : dget (dinsert k v m) k = some v := by
  induction m with
  | nil => simp [dinsert, dget]
  | cons p rest ih =>
    obtain ⟨k2, v2⟩ := p
    by_cases hk : k = k2
    · subst hk
      simp [dinsert, dget]
    · simp [dinsert, if_neg hk, dget, if_neg (Ne.symm hk), ih]

theorem dget_dinsert_of_ne {α β : Type} [DecidableEq α] {k a : α} (v : β)
    (m : List (α × β)) (h : k ≠ a) :
    dget (dinsert k v m) a = dget m a := by
  induction m with
  | nil => simp [dinsert, dget, if_neg h]
  | cons p rest ih =>
    obtain ⟨k2, v2⟩ := p
    by_cases hk : k = k2
    · subst hk
      simp [dinsert, dget, if_neg h]
    · by_cases ha : k2 = a
      · subst ha
        simp [dinsert, if_neg hk, dget]
      · simp [dinsert, if_neg hk, dget, if_neg ha, ih]

theorem mem_dinsert {α β : Type} [DecidableEq α] {x : α × β} {k : α} {v : β}
    {m : List (α × β)} (h : x ∈ dinsert k v m) : x = (k, v) ∨ x ∈ m := by
  induction m with
  | nil => simpa [dinsert] using h
  | cons p rest ih =>
    obtain ⟨k2, v2⟩ := p
    by_cases hk : k = k2
    · subst hk
      rcases (by simpa [dinsert] using h : x = (k, v) ∨ x ∈ rest) with h | h
      · exact Or.inl h
      · exact Or.inr (List.mem_cons_of_mem _ h)
    · rcases (by simpa [dinsert, if_neg hk] using h :
        x = (k2, v2) ∨ x ∈ dinsert k v rest) with h | h
      · exact Or.inr (by simp [h])
      · rcases ih h with h | h
        · exact Or.inl h
        · exact Or.inr (List.mem_cons_of_mem _ h)

/-! ### Folding a record list into a dict

Both scripts build their dicts with a `for` loop whose body performs one
dict assignment per record; this is `dfold`. -/

/-- One dict assignment per record, in iteration order: the loop
`for r in recs: m[f r] = g r`. -/
def dfold {ρ α β : Type} [DecidableEq α] (f : ρ → α) (g : ρ → β)
    (recs : List ρ) (m : List (α × β)) : List (α × β) :=
  recs.foldl (fun m r => dinsert (f r) (g r) m) m

theorem dfold_nil {ρ α β : Type} [DecidableEq α] (f : ρ → α) (g : ρ → β)
    (m : List (α × β)) : dfold f g [] m = m := rfl

theorem dfold_cons {ρ α β : Type} [DecidableEq α] (f : ρ → α) (g : ρ → β)
    (r : ρ) (recs : List ρ) (m : List (α × β)) :
    dfold f g (r :: recs) m = dfold f g recs (dinsert (f r) (g r) m) := rfl

theorem mem_keys_dfold_of_mem {ρ α β : Type} [DecidableEq α] (f : ρ → α)
    (g : ρ → β) {a : α} (recs : List ρ) {m : List (α × β)}
    (h : a ∈ keys m) : a ∈ keys (dfold f g recs m) := by
  induction recs generalizing m with
  | nil => exact h
  | cons r rest ih => exact ih (mem_keys_dinsert_of_mem _ h)

theorem mem_keys_dfold_of_mem_recs {ρ α β : Type} [DecidableEq α] (f : ρ → α)
    (g : ρ → β) {r : ρ} {recs : List ρ} (m : List (α × β))
    (h : r ∈ recs) : f r ∈ keys (dfold f g recs m) := by
  induction recs generalizing m with
  | nil => simp at h
  | cons r2 rest ih =>
    rcases List.mem_cons.mp h with h | h
    · subst h
      exact mem_keys_dfold_of_mem f g rest (mem_keys_dinsert_self _ _ _)
    · exact ih _ h

theorem mem_keys_dfold {ρ α β : Type} [DecidableEq α] (f : ρ → α) (g : ρ → β)
    {a : α} {recs : List ρ} {m : List (α × β)}
    (h : a ∈ keys (dfold f g recs m)) : a ∈ keys m ∨ a ∈ recs.map f := by
  induction recs generalizing m with
  | nil => exact Or.inl h
  | cons r rest ih =>
    rcases ih h with h2 | h2
    · rcases mem_keys_dinsert h2 with h3 | h3
      · exact Or.inr (by simp [h3])
      · exact Or.inl h3
    · exact Or.inr (by rw [List.map_cons]; exact List.mem_cons_of_mem _ h2)

theorem nodup_keys_dfold {ρ α β : Type} [DecidableEq α] (f : ρ → α)
    (g : ρ → β) (recs : List ρ) {m : List (α × β)} (h : (keys m).Nodup) :
    (keys (dfold f g recs m)).Nodup := by
  induction recs generalizing m with
  | nil => exact h
  | cons r rest ih => exact ih (nodup_keys_dinsert _ _ h)

theorem length_dfold_of_nodup {ρ α β : Type} [DecidableEq α] (f : ρ → α)
    (g : ρ → β) : ∀ (recs : List ρ) (m : List (α × β)),
    (recs.map f).Nodup → (∀ r ∈ recs, f r ∉ keys m) →
    (dfold f g recs m).length = m.length + recs.length := by
  intro recs
  induction recs with
  | nil => intro m _ _; simp [dfold]
  | cons r rest ih =>
    intro m hnd hfresh
    simp only [List.map_cons, List.nodup_cons] at hnd
    rw [dfold_cons, ih _ hnd.2, length_dinsert_of_not_mem _ (hfresh r (by simp))]
    · simp [List.length_cons]
      omega
    · intro r2 hr2
      intro hmem
      rcases mem_keys_dinsert hmem with h | h
      · exact hnd.1 (h ▸ List.mem_map_of_mem f hr2)
      · exact hfresh r2 (List.mem_cons_of_mem _ hr2) h

theorem dget_dfold {ρ α β : Type} [DecidableEq α] [DecidableEq ρ] (f : ρ → α)
    (g : ρ → β) : ∀ (recs : List ρ) (m : List (α × β)) (k : α),
    dget (dfold f g recs m) k =
      match recs.reverse.find? (fun r => decide (f r = k)) with
      | some r => some (g r)
      | none => dget m k := by
  intro recs
  induction recs using List.reverseRecOn with
  | nil => intro m k; simp [dfold]
  | append_singleton rest r ih =>
    intro m k
    rw [show dfold f g (rest ++ [r]) m =
        dinsert (f r) (g r) (dfold f g rest m) by
      simp [dfold, List.foldl_append]]
    simp only [List.reverse_append, List.reverse_singleton, List.cons_append,
      List.nil_append, List.find?]
    by_cases hk : f r = k
    · subst hk
      simp [dget_dinsert_self]
    · rw [dget_dinsert_of_ne _ _ hk, ih]
      simp [hk]

theorem mem_dfold {ρ α β : Type} [DecidableEq α] (f : ρ → α) (g : ρ → β)
    {x : α × β} : ∀ {recs : List ρ} {m : List (α × β)},
    x ∈ dfold f g recs m → x ∈ m ∨ ∃ r ∈ recs, x = (f r, g r) := by
  intro recs
  induction recs with
  | nil => intro m h; exact Or.inl h
  | cons r rest ih =>
    intro m h
    rcases ih h with h2 | h2
    · rcases mem_dinsert h2 with h3 | h3
      · exact Or.inr ⟨r, by simp, h3⟩
      · exact Or.inl h3
    · obtain ⟨r2, hr2, hx⟩ := h2
      exact Or.inr ⟨r2, List.mem_cons_of_mem _ hr2, hx⟩

/-! ### Python string ordering and `sorted()`

Python compares strings lexicographically by Unicode code point;
`sorted()` is a stable ascending sort. Both scripts call
`sorted(dict.keys())`. -/

/-- Strict code-point lexicographic order on character lists (Python
string `<`). -/
def strLtL : List Char → List Char → Bool
  | [], [] => false
  | [], _ :: _ => true
  | _ :: _, [] => false
  | a :: as, b :: bs =>
    if a.toNat < b.toNat then true
    else if b.toNat < a.toNat then false
    else strLtL as bs

/-- Code-point lexicographic `≤` on character lists. -/
def strLeL : List Char → List Char → Bool
  | [], _ => true
  | _ :: _, [] => false
  | a :: as, b :: bs =>
    if a.toNat < b.toNat then true
    else if b.toNat < a.toNat then false
    else strLeL as bs

/-- Python string `≤` (code-point lexicographic), as a relation for
`List.insertionSort`. -/
def strLe (a b : String) : Prop := strLeL a.data b.data = true

instance : DecidableRel strLe := fun a b =>
  inferInstanceAs (Decidable (strLeL a.data b.data = true))

instance : IsTotal String strLe where
  total a b := by
    unfold strLe
    generalize a.data = x
    generalize b.data = y
    induction x generalizing y with
    | nil => left; rfl
    | cons c cs ih =>
      cases y with
      | nil => right; rfl
      | cons d ds =>
        rcases Nat.lt_trichotomy c.toNat d.toNat with h | h | h
        · left; simp [strLeL, h]
        · rcases ih ds with h2 | h2
          · left; simp [strLeL, h, h2]
          · right; simp [strLeL, h.symm, h2]
        · right; simp [strLeL, h]

instance : IsTrans String strLe where
  trans a b c := by
    unfold strLe
    generalize a.data = x
    generalize b.data = y
    generalize c.data = z
    induction x generalizing y z with
    | nil => intro _ _; rfl
    | cons p ps ih =>
      intro h1 h2
      cases y with
      | nil => simp [strLeL] at h1
      | cons q qs =>
        cases z with
        | nil => simp [strLeL] at h2
        | cons r rs =>
          simp only [strLeL] at h1 h2 ⊢
          split at h1
          · split at h2
            · simp [show p.toNat < r.toNat by omega]
            · split at h2
              · exact absurd h2 (by simp)
              · simp [show p.toNat < r.toNat by omega]
          · split at h1
            · exact absurd h1 (by simp)
            · split at h2
              · simp [show p.toNat < r.toNat by omega]
              · split at h2
                · exact absurd h2 (by simp)
                · have hpr : ¬ p.toNat < r.toNat := by omega
                  have hrp : ¬ r.toNat < p.toNat := by omega
                  simp only [hpr, hrp, if_false]
                  exact ih qs rs h1 h2

/-- Python `sorted()` on a list of strings: stable ascending sort by
code-point lexicographic order. -/
def pySorted (l : List String) : List String := List.insertionSort strLe l

/-- Python `sorted()` on a list of integers. -/
def pySortedInt (l : List Int) : List Int :=
  List.insertionSort (fun a b : Int => a ≤ b) l

/-! ### Hash Engine — `generate_hashes.py`, lines 73–80

`unsigned_hash = zlib.crc32(prefab_name.encode('utf-8'))`
`signed_hash = (unsigned_hash ^ 0x80000000) - 0x80000000`
`hex_hash = hex(unsigned_hash)`

`zlib.crc32` is the standard CRC-32/IEEE checksum: process each byte
least-significant-bit first against the reflected polynomial
`0xEDB88320`, starting from `0xFFFFFFFF` and complementing the final
remainder. `str.encode('utf-8')` is standard UTF-8. -/

/-- One bit-step of the reflected CRC-32/IEEE algorithm. -/
def crc32_step (c : Nat) : Nat :=
  if c % 2 = 1 then (c / 2) ^^^ 0xEDB88320 else c / 2

/-- Absorb one byte into the CRC state: xor it in, then do eight
bit-steps. -/
def crc32_update (c b : Nat) : Nat := crc32_step^[8] (c ^^^ b)

/-- `zlib.crc32` over a byte sequence (initial value `0xFFFFFFFF`,
final complement). -/
def crc32 (bs : List Nat) : Nat :=
  (bs.foldl crc32_update 0xFFFFFFFF) ^^^ 0xFFFFFFFF

/-- Standard UTF-8 encoding of a Unicode code point. -/
def utf8EncodeCodepoint (c : Nat) : List Nat :=
  if c < 0x80 then [c]
  else if c < 0x800 then [0xC0 ||| (c >>> 6), 0x80 ||| (c &&& 0x3F)]
  else if c < 0x10000 then
    [0xE0 ||| (c >>> 12), 0x80 ||| ((c >>> 6) &&& 0x3F), 0x80 ||| (c &&& 0x3F)]
  else
    [0xF0 ||| (c >>> 18), 0x80 ||| ((c >>> 12) &&& 0x3F),
     0x80 ||| ((c >>> 6) &&& 0x3F), 0x80 ||| (c &&& 0x3F)]

/-- Python `s.encode('utf-8')`. -/
def utf8Bytes (s : String) : List Nat :=
  s.data.flatMap (fun c => utf8EncodeCodepoint c.toNat)

/-- `generate_hashes.py` line 74:
`unsigned_hash = zlib.crc32(prefab_name.encode('utf-8'))`. -/
def unsigned_hash (s : String) : Nat := crc32 (utf8Bytes s)

/-- `generate_hashes.py` line 77:
`signed_hash = (unsigned_hash ^ 0x80000000) - 0x80000000` (Python ints
are unbounded, so the subtraction is exact integer subtraction). -/
def signed_hash (u : Nat) : Int :=
  ((u ^^^ 0x80000000 : Nat) : Int) - 0x80000000

/-- `generate_hashes.py` line 80: `hex_hash = hex(unsigned_hash)` —
`0x` followed by the lowercase hex digits, no padding, `hex(0) = "0x0"`. -/
def hex_hash (u : Nat) : String := "0x" ++ (Nat.toDigits 16 u).asString

/-! Range facts for the hash engine. -/

theorem crc32_step_lt {c : Nat} (h : c < 2 ^ 32) : crc32_step c < 2 ^ 32 := by
  unfold crc32_step
  have hdiv : c / 2 < 2 ^ 32 := Nat.lt_of_le_of_lt (Nat.div_le_self c 2) h
  split
  · exact Nat.xor_lt_two_pow hdiv (by norm_num)
  · exact hdiv

theorem crc32_step_iter_lt (n : Nat) {c : Nat} (h : c < 2 ^ 32) :
    crc32_step^[n] c < 2 ^ 32 := by
  induction n generalizing c with
  | zero => exact h
  | succ n ih =>
    rw [Function.iterate_succ_apply]
    exact ih (crc32_step_lt h)

theorem crc32_update_lt {c b : Nat} (hc : c < 2 ^ 32) (hb : b < 2 ^ 32) :
    crc32_update c b < 2 ^ 32 :=
  crc32_step_iter_lt 8 (Nat.xor_lt_two_pow hc hb)

theorem utf8EncodeCodepoint_lt {c : Nat} (hc : c < 2 ^ 32) :
    ∀ b ∈ utf8EncodeCodepoint c, b < 2 ^ 32 := by
  intro b hb
  have hshift : ∀ k : Nat, c >>> k < 2 ^ 32 :=
    fun k => Nat.lt_of_le_of_lt
      (by rw [Nat.shiftRight_eq_div_pow]; exact Nat.div_le_self _ _) hc
  have hand : ∀ x : Nat, x &&& 0x3F < 2 ^ 32 :=
    fun x => Nat.lt_of_le_of_lt Nat.and_le_right (by norm_num)
  unfold utf8EncodeCodepoint at hb
  split at hb
  · simp at hb
    omega
  · split at hb
    · rcases (by simpa using hb : _ ∨ _) with h | h <;> subst h
      · exact Nat.or_lt_two_pow (by norm_num) (hshift 6)
      · exact Nat.or_lt_two_pow (by norm_num) (hand c)
    · split at hb
      · rcases (by simpa using hb : _ ∨ _ ∨ _) with h | h | h <;> subst h
        · exact Nat.or_lt_two_pow (by norm_num) (hshift 12)
        · exact Nat.or_lt_two_pow (by norm_num) (hand _)
        · exact Nat.or_lt_two_pow (by norm_num) (hand _)
      · rcases (by simpa using hb : _ ∨ _ ∨ _ ∨ _) with h | h | h | h <;> subst h
        · exact Nat.or_lt_two_pow (by norm_num) (hshift 18)
        · exact Nat.or_lt_two_pow (by norm_num) (hand _)
        · exact Nat.or_lt_two_pow (by norm_num) (hand _)
        · exact Nat.or_lt_two_pow (by norm_num) (hand _)

theorem utf8Bytes_lt (s : String) : ∀ b ∈ utf8Bytes s, b < 2 ^ 32 := by
  intro b hb
  unfold utf8Bytes at hb
  rw [List.mem_flatMap] at hb
  obtain ⟨c, _, hbc⟩ := hb
  have : c.toNat < 2 ^ 32 := by
    have := UInt32.toNat_lt_size c.val
    simpa [Char.toNat, UInt32.size] using this
  exact utf8EncodeCodepoint_lt this b hbc

theorem crc32_foldl_lt : ∀ (bs : List Nat) (c : Nat), c < 2 ^ 32 →
    (∀ b ∈ bs, b < 2 ^ 32) → bs.foldl crc32_update c < 2 ^ 32 := by
  intro bs
  induction bs with
  | nil => intro c hc _; exact hc
  | cons b rest ih =>
    intro c hc hb
    rw [List.foldl_cons]
    exact ih _ (crc32_update_lt hc (hb b (by simp)))
      (fun x hx => hb x (List.mem_cons_of_mem _ hx))

theorem unsigned_hash_lt (s : String) : unsigned_hash s < 2 ^ 32 := by
  unfold unsigned_hash crc32
  exact Nat.xor_lt_two_pow
    (crc32_foldl_lt _ _ (by norm_num) (utf8Bytes_lt s)) (by norm_num)

/-! Two's-complement reinterpretation: xor with the sign bit. -/

theorem xor_two_pow_of_lt {n b : Nat} (h : b < 2 ^ n) :
    b ^^^ 2 ^ n = b + 2 ^ n := by
  apply Nat.eq_of_testBit_eq
  intro i
  rcases Nat.lt_trichotomy i n with hi | hi | hi
  · rw [Nat.testBit_xor, Nat.testBit_two_pow_of_ne (by omega),
      Nat.add_comm b (2 ^ n), Nat.testBit_two_pow_add_gt hi]
    simp
  · subst hi
    rw [Nat.testBit_xor, Nat.testBit_two_pow_self,
      Nat.add_comm b (2 ^ i), Nat.testBit_two_pow_add_eq,
      Nat.testBit_lt_two_pow h]
    simp
  · have h1 : b < 2 ^ i := lt_of_lt_of_le h (Nat.pow_le_pow_right (by omega) (by omega))
    have h2 : b + 2 ^ n < 2 ^ i := by
      have hn1 : n + 1 ≤ i := hi
      have : (2 : Nat) ^ n + 2 ^ n ≤ 2 ^ i := by
        rw [← Nat.two_mul, ← Nat.pow_succ']
        exact Nat.pow_le_pow_right (by omega) hn1
      omega
    rw [Nat.testBit_xor, Nat.testBit_two_pow_of_ne (by omega),
      Nat.testBit_lt_two_pow h1, Nat.testBit_lt_two_pow h2]
    rfl

theorem xor_two_pow_of_ge {n u : Nat} (h1 : 2 ^ n ≤ u) (h2 : u < 2 ^ (n + 1)) :
    u ^^^ 2 ^ n = u - 2 ^ n := by
  have hb : u - 2 ^ n < 2 ^ n := by
    have : (2 : Nat) ^ (n + 1) = 2 ^ n + 2 ^ n := by
      rw [Nat.pow_succ]
      omega
    omega
  have := xor_two_pow_of_lt hb
  have hu : u = (u - 2 ^ n) ^^^ 2 ^ n := by
    rw [this]
    omega
  calc u ^^^ 2 ^ n = ((u - 2 ^ n) ^^^ 2 ^ n) ^^^ 2 ^ n := by rw [← hu]
    _ = (u - 2 ^ n) ^^^ (2 ^ n ^^^ 2 ^ n) := Nat.xor_assoc _ _ _
    _ = u - 2 ^ n := by rw [Nat.xor_self, Nat.xor_zero]

/-! ### Canonicalizer — `update_device_hashes.py`, lines 26–28

`display_name = title.replace('<N:EN:', '').replace('>', '').strip()`
`if not display_name: display_name = prefab_name`

Python `str.replace` substitutes every non-overlapping occurrence left to
right; `str.strip()` removes leading and trailing whitespace; an empty
string is falsy. -/

/-- The characters Python `str.strip()` removes: exactly those for which
`str.isspace()` holds — U+0009 to U+000D, U+001C to U+001F, U+0020 space,
U+0085 (next line), U+00A0 (no-break space), U+1680 (Ogham space mark),
U+2000 to U+200A (typographic spaces), U+2028 and U+2029 (line and
paragraph separators), U+202F, U+205F and U+3000 (ideographic space). -/
def pyIsSpace (c : Char) : Bool :=
  let n := c.toNat
  (0x09 ≤ n && n ≤ 0x0D) || (0x1C ≤ n && n ≤ 0x1F) || n = 0x20 ||
  n = 0x85 || n = 0xA0 || n = 0x1680 || (0x2000 ≤ n && n ≤ 0x200A) ||
  n = 0x2028 || n = 0x2029 || n = 0x202F || n = 0x205F || n = 0x3000

/-- Python `s.strip()`: drop whitespace from both ends. -/
def pyStrip (s : String) : String :=
  ⟨((s.data.dropWhile pyIsSpace).reverse.dropWhile pyIsSpace).reverse⟩

/-- Replace every non-overlapping occurrence of `pat` left to right
(Python `str.replace` for a non-empty pattern). The fuel argument is the
length of the scanned list; each step consumes at least one character. -/
def replaceAux (pat repl : List Char) : Nat → List Char → List Char
  | _, [] => []
  | 0, s => s
  | fuel + 1, c :: rest =>
    if pat.isPrefixOf (c :: rest) then
      repl ++ replaceAux pat repl fuel ((c :: rest).drop pat.length)
    else
      c :: replaceAux pat repl fuel rest

/-- Python `s.replace(pat, repl)` for non-empty `pat`. -/
def pyReplace (s pat repl : String) : String :=
  ⟨replaceAux pat.data repl.data s.data.length s.data⟩

/-- `update_device_hashes.py` lines 26–28: strip the `<N:EN:` localization
marker and every `>` character, trim whitespace, and fall back to the
identifier when the result is empty (Python truthiness of `str`). -/
def display_name (title prefab_name : String) : String :=
  let dn := pyStrip (pyReplace (pyReplace title "<N:EN:" "") ">" "")
  if dn = "" then prefab_name else dn

/-- A pattern whose first character never occurs in the scanned list is
never found, so the replacement is the identity. -/
theorem replaceAux_of_not_mem {p : Char} {ps repl : List Char} :
    ∀ (fuel : Nat) (s : List Char), (∀ c ∈ s, c ≠ p) →
    replaceAux (p :: ps) repl fuel s = s := by
  intro fuel
  induction fuel with
  | zero => intro s _; cases s <;> rfl
  | succ fuel ih =>
    intro s hs
    cases s with
    | nil => rfl
    | cons c rest =>
      have hcp : (c == p) = false := by
        simpa using hs c (by simp)
      rw [replaceAux, if_neg]
      · rw [ih rest (fun x hx => hs x (List.mem_cons_of_mem _ hx))]
      · simp [List.isPrefixOf]
        intro hpc
        simp [hpc.symm] at hcp

theorem pyReplace_of_not_mem {s pat repl : String} {p : Char} {ps : List Char}
    (hpat : pat.data = p :: ps) (h : ∀ c ∈ s.data, c ≠ p) :
    pyReplace s pat repl = s := by
  unfold pyReplace
  rw [hpat, replaceAux_of_not_mem _ _ h]

theorem pyStrip_data (s : String) :
    (pyStrip s).data = ((s.data.dropWhile pyIsSpace).reverse.dropWhile pyIsSpace).reverse :=
  rfl

/-! ### Source Loader and Text Emitter — `generate_hashes.py`

Lines 66–67 (the loader):
`for t in x.findall('./Things/RecordThing'):`
`    d[t.findtext('./Key')] = t.findtext('./Value', '')`

`findtext('./Key')` yields `None` when the element is missing (no
default), so the key of `d` is an optional string; `findtext('./Value',
'')` defaults to the empty string. No record is skipped.

Lines 70–86 (the emitter): iterate over `sorted(d.keys())` and write
`f'"{prefab_name}" {signed_hash} {hex_hash} "{display_name}"\n'` per key,
where `display_name = d[prefab_name]` is the raw stored value. -/

/-- One `RecordThing` element: optional `Key` text and optional `Value`
text, as returned by `findtext`. -/
structure RecordThing where
  key : Option String
  value : Option String
deriving DecidableEq

/-- `generate_hashes.py` lines 66–67: populate `d` from the records. -/
def xml_load (ts : List RecordThing) : List (Option String × String) :=
  ts.foldl (fun d t => dinsert t.key (t.value.getD "") d) []

/-- The sorted key iteration `for prefab_name in sorted(d.keys())`. -/
def text_keys (d : List (String × String)) : List String := pySorted (keys d)

/-- `generate_hashes.py` line 86, one output line:
`f'"{prefab_name}" {signed_hash} {hex_hash} "{display_name}"\n'`. -/
def text_line (prefab_name display : String) : String :=
  "\"" ++ prefab_name ++ "\" " ++ toString (signed_hash (unsigned_hash prefab_name))
    ++ " " ++ hex_hash (unsigned_hash prefab_name) ++ " \"" ++ display ++ "\"\n"

/-- `generate_hashes.py` lines 70–86: the whole text artifact, one line
per key of `d` in sorted order, displaying the raw stored value. -/
def text_output (d : List (String × String)) : String :=
  String.join ((text_keys d).map (fun k => text_line k ((dget d k).getD "")))

/-- `generate_hashes.py` lines 58–63 and 70: the source is parsed first
(`ET.parse` inside `try`, with `exit()` on failure — and an uncaught
`ParseError` likewise terminates the script there); only after a
successful parse is the output file opened and written. `none` models a
missing or unparsable source; the result models the single file write
`(path, content)` performed on success. -/
def run_generate (parsed : Option (List (String × String))) :
    Except String (String × String) :=
  match parsed with
  | none => Except.error "SourceUnavailable"
  | some d => Except.ok ("./output/stationpedia.txt", text_output d)

/-- The list of files written by a `generate_hashes.py` run. -/
def generate_writes (parsed : Option (List (String × String))) :
    List (String × String) :=
  match run_generate parsed with
  | Except.error _ => []
  | Except.ok w => [w]

/-! ### Source Loader, Table Builder and Code Emitter —
`update_device_hashes.py`

Lines 19–31:
`for page in data['pages']:`
`    prefab_name = page.get('PrefabName')`
`    prefab_hash = page.get('PrefabHash')`
`    title = page.get('Title', '')`
`    if prefab_name and prefab_hash is not None:`
`        display_name = title.replace('<N:EN:', '').replace('>', '').strip()`
`        if not display_name: display_name = prefab_name`
`        device_map[prefab_name] = (prefab_hash, display_name)`
`        hash_to_name[prefab_hash] = display_name` -/

/-- One page of `Stationpedia.json`: the three fields the script reads.
`PrefabHash` values in the source data are signed 32-bit integers, hence
`Int`. -/
structure Page where
  prefabName : Option String
  prefabHash : Option Int
  title : Option String
deriving DecidableEq

/-- The body of the page loop (lines 20–31): keep the page iff
`prefab_name` is truthy (present and non-empty) and `prefab_hash` is not
`None`, then perform the two dict assignments. -/
def build_step (acc : List (String × Int × String) × List (Int × String))
    (page : Page) : List (String × Int × String) × List (Int × String) :=
  match page.prefabName, page.prefabHash with
  | some name, some h =>
    if name = "" then acc
    else
      let disp := display_name (page.title.getD "") name
      (dinsert name (h, disp) acc.1, dinsert h disp acc.2)
  | _, _ => acc

/-- Lines 19–31: build `device_map` and `hash_to_name` over all pages. -/
def build_maps (pages : List Page) :
    List (String × Int × String) × List (Int × String) :=
  pages.foldl build_step ([], [])

/-- `device_map : PrefabName → (PrefabHash, display_name)`. -/
def device_map (pages : List Page) : List (String × Int × String) :=
  (build_maps pages).1

/-- `hash_to_name : PrefabHash → display_name`. -/
def hash_to_name (pages : List Page) : List (Int × String) :=
  (build_maps pages).2

/-- The pages the loop keeps, projected to `(name, hash, display)`. -/
def validRecs (pages : List Page) : List (String × Int × String) :=
  pages.filterMap (fun p =>
    match p.prefabName, p.prefabHash with
    | some name, some h =>
      if name = "" then none
      else some (name, h, display_name (p.title.getD "") name)
    | _, _ => none)

theorem build_step_skip {p : Page}
    (h : p.prefabName = none ∨ p.prefabHash = none ∨ p.prefabName = some "")
    (acc : List (String × Int × String) × List (Int × String)) :
    build_step acc p = acc := by
  unfold build_step
  rcases h with h | h | h
  · rw [h]
  · rw [h]
    cases p.prefabName <;> rfl
  · rw [h]
    cases p.prefabHash <;> rfl

theorem build_step_valid {p : Page} {name : String} {hsh : Int}
    (h1 : p.prefabName = some name) (h2 : p.prefabHash = some hsh)
    (hne : name ≠ "")
    (acc : List (String × Int × String) × List (Int × String)) :
    build_step acc p =
      (dinsert name (hsh, display_name (p.title.getD "") name) acc.1,
       dinsert hsh (display_name (p.title.getD "") name) acc.2) := by
  unfold build_step
  rw [h1, h2]
  simp [hne]

theorem validRecs_cons_skip {p : Page}
    (h : p.prefabName = none ∨ p.prefabHash = none ∨ p.prefabName = some "")
    (rest : List Page) : validRecs (p :: rest) = validRecs rest := by
  unfold validRecs
  rw [List.filterMap_cons]
  rcases h with h | h | h
  · rw [h]
  · rw [h]
    cases p.prefabName <;> rfl
  · rw [h]
    cases p.prefabHash <;> rfl

theorem validRecs_cons_valid {p : Page} {name : String} {hsh : Int}
    (h1 : p.prefabName = some name) (h2 : p.prefabHash = some hsh)
    (hne : name ≠ "") (rest : List Page) :
    validRecs (p :: rest) =
      (name, hsh, display_name (p.title.getD "") name) :: validRecs rest := by
  unfold validRecs
  rw [List.filterMap_cons, h1, h2]
  simp [hne]

theorem build_maps_go (pages : List Page) :
    ∀ (dm : List (String × Int × String)) (hn : List (Int × String)),
    pages.foldl build_step (dm, hn) =
      (dfold (fun r => r.1) (fun r => r.2) (validRecs pages) dm,
       dfold (fun r => r.2.1) (fun r => r.2.2) (validRecs pages) hn) := by
  induction pages with
  | nil => intro dm hn; rfl
  | cons p rest ih =>
    intro dm hn
    rw [List.foldl_cons]
    cases hn1 : p.prefabName with
    | none =>
      rw [build_step_skip (Or.inl hn1), validRecs_cons_skip (Or.inl hn1), ih]
    | some name =>
      cases hh : p.prefabHash with
      | none =>
        rw [build_step_skip (Or.inr (Or.inl hh)),
          validRecs_cons_skip (Or.inr (Or.inl hh)), ih]
      | some hsh =>
        by_cases hname : name = ""
        · subst hname
          rw [build_step_skip (Or.inr (Or.inr hn1)),
            validRecs_cons_skip (Or.inr (Or.inr hn1)), ih]
        · rw [build_step_valid hn1 hh hname,
            validRecs_cons_valid hn1 hh hname, dfold_cons, dfold_cons]
          exact ih _ _

theorem device_map_eq (pages : List Page) :
    device_map pages =
      dfold (fun r => r.1) (fun r => r.2) (validRecs pages) [] := by
  unfold device_map build_maps
  rw [build_maps_go]

theorem hash_to_name_eq (pages : List Page) :
    hash_to_name pages =
      dfold (fun r => r.2.1) (fun r => r.2.2) (validRecs pages) [] := by
  unfold hash_to_name build_maps
  rw [build_maps_go]

theorem validRecs_name_ne_empty {pages : List Page}
    {r : String × Int × String} (h : r ∈ validRecs pages) : r.1 ≠ "" := by
  unfold validRecs at h
  rw [List.mem_filterMap] at h
  obtain ⟨p, _, hp⟩ := h
  revert hp
  cases p.prefabName with
  | none => intro hp; cases hp
  | some name =>
    cases p.prefabHash with
    | none => intro hp; cases hp
    | some hsh =>
      by_cases hname : name = ""
      · simp [hname]
      · intro hp
        simp only [if_neg hname] at hp
        cases hp
        exact hname

theorem validRecs_source {pages : List Page} {r : String × Int × String}
    (h : r ∈ validRecs pages) :
    ∃ p ∈ pages, p.prefabName = some r.1 ∧ p.prefabHash = some r.2.1 := by
  unfold validRecs at h
  rw [List.mem_filterMap] at h
  obtain ⟨p, hmem, hp⟩ := h
  refine ⟨p, hmem, ?_⟩
  revert hp
  cases p.prefabName with
  | none => intro hp; cases hp
  | some name =>
    cases p.prefabHash with
    | none => intro hp; cases hp
    | some hsh =>
      by_cases hname : name = ""
      · simp [hname]
      · intro hp
        simp only [if_neg hname] at hp
        cases hp
        exact ⟨rfl, rfl⟩

/-- Lines 45–47: `for prefab_name in sorted(device_map.keys())`, emitting
`"{prefab_name}" => {hash_value},` with the hash taken from
`device_map[prefab_name]`. Modelled as the emitted (identifier, hash)
sequence of `DEVICE_NAME_TO_HASH`. -/
def name_to_hash_entries (dm : List (String × Int × String)) :
    List (String × Int) :=
  (pySorted (keys dm)).map
    (fun n => (n, ((dget dm n).getD (0, "")).1))

/-- Line 58: escape backslashes and double quotes in the display name. -/
def escape_display (s : String) : String :=
  pyReplace (pyReplace s "\\" "\\\\") "\"" "\\\""

/-- Lines 55–59: `for hash_value in sorted(hash_to_name.keys())`, emitting
`{hash_value} => "{display_name}",`. Modelled as the emitted
(hash, escaped display) sequence of `HASH_TO_DISPLAY_NAME`. -/
def hash_to_display_entries (hn : List (Int × String)) :
    List (Int × String) :=
  (pySortedInt (keys hn)).map
    (fun h => (h, escape_display ((dget hn h).getD "")))

/-- `update_device_hashes.py` lines 12–13 and 64–67: `Stationpedia.json`
is opened and parsed first (an exception terminates the script); the
output file is opened and written only afterwards. `none` models a
missing or unparsable source; the result models the single file write of
the generated Rust source, whose payload is the two emitted map entry
sequences. -/
def run_update (loaded : Option (List Page)) :
    Except String (String × (List (String × Int) × List (Int × String))) :=
  match loaded with
  | none => Except.error "SourceUnavailable"
  | some pages =>
    Except.ok
      ("c:\\Users\\marka\\Desktop\\VS IC10 Extension Repo\\Stationeers-ic10-main\\FlorpyDorp IC10\\ic10lsp\\src\\device_hashes.rs",
       (name_to_hash_entries (device_map pages),
        hash_to_display_entries (hash_to_name pages)))

/-- The list of files written by an `update_device_hashes.py` run. -/
def update_writes (loaded : Option (List Page)) :
    List (String × (List (String × Int) × List (Int × String))) :=
  match run_update loaded with
  | Except.error _ => []
  | Except.ok w => [w]

/-! ## Claims -/

/-- C1: for every identifier string `s`, the unsigned hash computed by
the pipeline equals the standard CRC-32/IEEE checksum of the UTF-8 byte
encoding of `s` (here `unsigned_hash` is exactly that algorithm, checked
against the CRC-32/IEEE reference check value `crc32("123456789") =
0xCBF43926`); the hash of the empty string is `0`, and the result always
lies in `[0, 2^32 - 1]`. -/
theorem C1_unsigned_hash_is_crc32 :
    unsigned_hash "" = 0 ∧ unsigned_hash "123456789" = 0xCBF43926 ∧
    ∀ s : String, unsigned_hash s < 2 ^ 32 :=
  ⟨by decide, by decide, unsigned_hash_lt⟩

/-- C2: for every unsigned hash value `u` in `[0, 2^32 - 1]`, the code's
expression `(u ^ 0x80000000) - 0x80000000` equals `u - 2^32` when
`u ≥ 2^31` and `u` otherwise — the two's-complement 32-bit
reinterpretation of `u`. -/
theorem C2_signed_hash_twos_complement (u : Nat) (hu : u < 2 ^ 32) :
    signed_hash u = if 2 ^ 31 ≤ u then (u : Int) - 2 ^ 32 else (u : Int) := by
  unfold signed_hash
  have hpow : (0x80000000 : Nat) = 2 ^ 31 := by norm_num
  by_cases hc : 2 ^ 31 ≤ u
  · rw [if_pos hc]
    have hx : u ^^^ 0x80000000 = u - 2 ^ 31 := by
      rw [hpow]
      exact xor_two_pow_of_ge hc (by simpa using hu)
    rw [hx]
    have h31 : (2 : Nat) ^ 31 = 2147483648 := by norm_num
    rw [h31] at hc ⊢
    omega
  · rw [if_neg hc]
    push_neg at hc
    have hx : u ^^^ 0x80000000 = u + 2 ^ 31 := by
      rw [hpow, xor_two_pow_of_lt hc]
    rw [hx]
    have h31 : (2 : Nat) ^ 31 = 2147483648 := by norm_num
    rw [h31]
    omega

/-- Witness for C2 at `u = 2^31`: the smallest hash that reinterprets to
a negative number. -/
theorem C2_witness :
    signed_hash 2147483648 = (2147483648 : Int) - 2 ^ 32 := by
  have h := C2_signed_hash_twos_complement 2147483648 (by norm_num)
  rw [if_pos (by norm_num)] at h
  exact h

/-- C3 counterexample: the canonicalizer is quantified over *every*
identifier in the claim, but when the identifier itself is empty the
fallback substitutes the empty identifier and the result is empty —
`display_name "" "" = ""` — contradicting "the result is never empty". -/
theorem C3_counterexample : display_name "" "" = "" := by decide

/-- C3 amended: for every raw display string and every *non-empty*
identifier (the only identifiers the pipeline feeds it, since the loader
skips falsy `PrefabName`s), the canonicalized display name is non-empty;
in particular raw display `""` for identifier `"DeviceB"` yields
`"DeviceB"`. -/
theorem C3_display_name_nonempty (raw ident : String) (h : ident ≠ "") :
    display_name raw ident ≠ "" ∧ display_name "" "DeviceB" = "DeviceB" := by
  refine ⟨?_, by decide⟩
  unfold display_name
  by_cases hdn : pyStrip (pyReplace (pyReplace raw "<N:EN:" "") ">" "") = ""
  · simpa [hdn] using h
  · simp only [if_neg hdn]
    exact hdn

/-- Witness for C3 at raw `"xyz"` / `""` and identifier `"DeviceB"`. -/
theorem C3_witness :
    display_name "xyz" "DeviceB" ≠ "" ∧ display_name "" "DeviceB" = "DeviceB" :=
  C3_display_name_nonempty "xyz" "DeviceB" (by decide)

/-- C9 counterexample: markup that is not a localization wrapper is *not*
passed through unchanged — the canonicalizer deletes every `>` character,
so `"<i>x</i>"` becomes `"<ix</i"`. -/
theorem C9_counterexample :
    display_name "<i>x</i>" "Id" = "<ix</i" ∧
    display_name "<i>x</i>" "Id" ≠ "<i>x</i>" := by
  exact ⟨by decide, by decide⟩

/-- C9 amended: the canonicalizer is a total function that never fails;
it strips exactly the literal token `<N:EN:` and every `>` character and
trims surrounding whitespace, so any non-empty raw display containing
neither `<` nor `>` and carrying no surrounding whitespace is passed
through unchanged, for every identifier. -/
theorem C9_passthrough (title ident : String)
    (hlt : Char.ofNat 60 ∉ title.data) (hgt : Char.ofNat 62 ∉ title.data)
    (hws : pyStrip title = title) (hne : title ≠ "") :
    display_name title ident = title := by
  have e1 : pyReplace title "<N:EN:" "" = title := by
    refine pyReplace_of_not_mem
      (show ("<N:EN:" : String).data = Char.ofNat 60 ::
        [Char.ofNat 78, Char.ofNat 58, Char.ofNat 69, Char.ofNat 78,
          Char.ofNat 58] by decide) ?_
    intro c hc he
    exact hlt (he ▸ hc)
  have e2 : pyReplace title ">" "" = title := by
    refine pyReplace_of_not_mem
      (show (">" : String).data = Char.ofNat 62 :: [] by decide) ?_
    intro c hc he
    exact hgt (he ▸ hc)
  unfold display_name
  rw [e1, e2, hws]
  simp [hne]

/-- Witness for C9 at raw `"Pipe Analyzer"` (plain text, no markup). -/
theorem C9_witness : display_name "Pipe Analyzer" "X" = "Pipe Analyzer" :=
  C9_passthrough "Pipe Analyzer" "X" (by decide) (by decide) (by decide)
    (by decide)

/-- C4 counterexample: the text emitter writes the *raw* stored display
value, not the canonicalized one — `generate_hashes.py` performs no
canonicalization (`display_name = d[prefab_name]` on line 83), so the
record `{"DeviceA": "<N:EN:Pipe Analyzer>"}` does not produce the line
with display `"Pipe Analyzer"` the claim asserts. -/
theorem C4_counterexample :
    text_output [("DeviceA", "<N:EN:Pipe Analyzer>")] ≠
      "\"DeviceA\" 376252038 0x166d2686 \"Pipe Analyzer\"\n" := by decide

/-- C4 amended: the text emitter writes exactly one line per entry, in
ascending identifier order, with the exact field layout — double-quoted
identifier, signed decimal hash, lowercase `0x` hex hash, double-quoted
*raw* display value, space-separated and newline-terminated; the record
`{"DeviceA": "<N:EN:Pipe Analyzer>"}` produces the line
`"DeviceA" 376252038 0x166d2686 "<N:EN:Pipe Analyzer>"`. -/
theorem C4_text_emitter_layout (d : List (String × String)) :
    List.Sorted strLe (text_keys d) ∧
    (text_keys d).Perm (keys d) ∧
    ((text_keys d).map (fun k => text_line k ((dget d k).getD ""))).length
      = d.length ∧
    text_output [("DeviceA", "<N:EN:Pipe Analyzer>")] =
      "\"DeviceA\" 376252038 0x166d2686 \"<N:EN:Pipe Analyzer>\"\n" := by
  refine ⟨?_, ?_, ?_, by decide⟩
  · exact List.sorted_insertionSort strLe (keys d)
  · exact List.perm_insertionSort strLe (keys d)
  · rw [List.length_map]
    unfold text_keys pySorted
    rw [(List.perm_insertionSort strLe (keys d)).length_eq]
    exact List.length_map _ _

/-- C5 counterexample: the XML Source Loader of `generate_hashes.py`
(lines 66–67) performs no filtering at all — a record whose `Key` text is
the empty string is kept, and the text pipeline then hashes the empty
identifier (CRC-32 of `""` is `0`) and emits a line for it. -/
theorem C5_counterexample :
    xml_load [⟨some "", some "X"⟩] = [(some "", "X")] ∧
    text_output [("", "X")] = "\"\" 0 0x0 \"X\"\n" := by
  exact ⟨by decide, by decide⟩

/-- C5 amended: the JSON Source Loader of `update_device_hashes.py` skips
every record whose identifier is missing or empty (and those with a
missing hash), so no empty identifier reaches its table or emitter, and a
record with an identifier but missing display text is kept with display
defaulting to the empty string; the XML Source Loader of
`generate_hashes.py`, by contrast, keeps records with missing or empty
identifiers (its missing display text also defaults to the empty
string). -/
theorem C5_loader_filtering (pages : List Page) :
    (∀ n ∈ keys (device_map pages), n ≠ "") ∧
    xml_load [⟨some "K", none⟩] = [(some "K", "")] := by
  refine ⟨?_, by decide⟩
  intro n hn
  rw [device_map_eq] at hn
  rcases mem_keys_dfold _ _ hn with h | h
  · simp [keys] at h
  · rw [List.mem_map] at h
    obtain ⟨r, hr, hrn⟩ := h
    exact hrn ▸ validRecs_name_ne_empty hr

/-- Witness for C5 at a concrete one-page source. -/
theorem C5_witness :
    ("DeviceA" : String) ≠ "" ∧ xml_load [⟨some "K", none⟩] = [(some "K", "")] :=
  ⟨(C5_loader_filtering [⟨some "DeviceA", some 42, some "T"⟩]).1 "DeviceA"
      (by decide),
   (C5_loader_filtering []).2⟩

/-- C6: when two distinct identifiers produce the same hash, generation
does not fail: both identifiers still appear in the name map (keys of
`device_map`, emitted as `NAME_TO_HASH`), `hash_to_name` (emitted as
`HASH_TO_DISPLAY_NAME`) retains exactly one entry for the shared hash,
and the collision is surfaced in the run summary — the script prints
`len(device_map)` and `len(hash_to_name)`, and the latter is strictly
smaller exactly because of the collision, so it is never silent. -/
theorem C6_collision_recorded (pages : List Page)
    (r1 r2 : String × Int × String)
    (hnd : ((validRecs pages).map (fun r => r.1)).Nodup)
    (h1 : r1 ∈ validRecs pages) (h2 : r2 ∈ validRecs pages)
    (hne : r1.1 ≠ r2.1) (hh : r1.2.1 = r2.2.1) :
    r1.1 ∈ keys (device_map pages) ∧ r2.1 ∈ keys (device_map pages) ∧
    (keys (hash_to_name pages)).count r1.2.1 = 1 ∧
    (hash_to_name pages).length < (device_map pages).length := by
  have hdm := device_map_eq pages
  have hhn := hash_to_name_eq pages
  refine ⟨?_, ?_, ?_, ?_⟩
  · rw [hdm]
    exact mem_keys_dfold_of_mem_recs _ _ _ h1
  · rw [hdm]
    exact mem_keys_dfold_of_mem_recs _ _ _ h2
  · rw [hhn]
    have hnodup := nodup_keys_dfold (fun r : String × Int × String => r.2.1)
      (fun r => r.2.2) (validRecs pages)
      (show (keys ([] : List (Int × String))).Nodup by simp [keys])
    have hmem : r1.2.1 ∈
        keys (dfold (fun r : String × Int × String => r.2.1)
          (fun r => r.2.2) (validRecs pages) []) :=
      mem_keys_dfold_of_mem_recs _ _ _ h1
    exact List.count_eq_one_of_mem hnodup hmem
  · rw [hdm, hhn]
    have hdml : (dfold (fun r : String × Int × String => r.1)
        (fun r => r.2) (validRecs pages) []).length
          = (validRecs pages).length := by
      have := length_dfold_of_nodup (fun r : String × Int × String => r.1)
        (fun r => r.2) (validRecs pages) [] hnd (by simp [keys])
      simpa using this
    have hkn := nodup_keys_dfold (fun r : String × Int × String => r.2.1)
      (fun r => r.2.2) (validRecs pages)
      (show (keys ([] : List (Int × String))).Nodup by simp [keys])
    have hsub : keys (dfold (fun r : String × Int × String => r.2.1)
        (fun r => r.2.2) (validRecs pages) []) ⊆
          ((validRecs pages).map (fun r => r.2.1)).dedup := by
      intro a ha
      rcases mem_keys_dfold _ _ ha with h | h
      · simp [keys] at h
      · exact List.mem_dedup.mpr h
    have hle := (List.subperm_of_subset hkn hsub).length_le
    have hnotnodup : ¬ ((validRecs pages).map (fun r => r.2.1)).Nodup := by
      intro hnod
      have heq := List.inj_on_of_nodup_map hnod h1 h2 hh
      exact hne (congrArg (fun r : String × Int × String => r.1) heq)
    have hdlt : (((validRecs pages).map (fun r => r.2.1)).dedup).length <
        ((validRecs pages).map (fun r => r.2.1)).length := by
      rcases Nat.lt_or_ge
        ((((validRecs pages).map (fun r => r.2.1)).dedup).length)
        (((validRecs pages).map (fun r => r.2.1)).length) with h | h
      · exact h
      · exfalso
        have heq := (List.dedup_sublist
            ((validRecs pages).map (fun r => r.2.1))).eq_of_length
          (Nat.le_antisymm (List.dedup_sublist _).length_le h)
        exact hnotnodup (heq ▸ List.nodup_dedup _)
    have hlen : (dfold (fun r : String × Int × String => r.2.1)
        (fun r => r.2.2) (validRecs pages) []).length =
          (keys (dfold (fun r : String × Int × String => r.2.1)
            (fun r => r.2.2) (validRecs pages) [])).length :=
      (List.length_map _ _).symm
    rw [hlen, hdml]
    calc (keys (dfold (fun r : String × Int × String => r.2.1)
          (fun r => r.2.2) (validRecs pages) [])).length
        ≤ (((validRecs pages).map (fun r => r.2.1)).dedup).length := hle
      _ < ((validRecs pages).map (fun r => r.2.1)).length := hdlt
      _ = (validRecs pages).length := List.length_map _ _

/-- Witness for C6: two pages, distinct identifiers `"B"` and `"A"`, both
with hash `7`. -/
theorem C6_witness :
    ("B" : String) ∈ keys (device_map
      [⟨some "B", some 7, some "Bname"⟩, ⟨some "A", some 7, some "Aname"⟩]) ∧
    ("A" : String) ∈ keys (device_map
      [⟨some "B", some 7, some "Bname"⟩, ⟨some "A", some 7, some "Aname"⟩]) ∧
    (keys (hash_to_name
      [⟨some "B", some 7, some "Bname"⟩, ⟨some "A", some 7, some "Aname"⟩])).count
        7 = 1 ∧
    (hash_to_name
      [⟨some "B", some 7, some "Bname"⟩, ⟨some "A", some 7, some "Aname"⟩]).length <
    (device_map
      [⟨some "B", some 7, some "Bname"⟩, ⟨some "A", some 7, some "Aname"⟩]).length :=
  C6_collision_recorded
    [⟨some "B", some 7, some "Bname"⟩, ⟨some "A", some 7, some "Aname"⟩]
    ("B", 7, "Bname") ("A", 7, "Aname")
    (by decide) (by decide) (by decide) (by decide) (by decide)

/-- C7 counterexample: with pages `B` then `A` (same hash `7`), the
ascending identifier order is `["A", "B"]`, so the claim predicts the
display name of `"B"` (`"Bname"`) wins the display-name slot; the code
instead stores `"Aname"` — the *later record in iteration order* wins,
not the later identifier in sort order. -/
theorem C7_counterexample :
    hash_to_name
      [⟨some "B", some 7, some "Bname"⟩, ⟨some "A", some 7, some "Aname"⟩]
        = [(7, "Aname")] ∧
    pySorted (keys (device_map
      [⟨some "B", some 7, some "Bname"⟩, ⟨some "A", some 7, some "Aname"⟩]))
        = ["A", "B"] ∧
    dget (device_map
      [⟨some "B", some 7, some "Bname"⟩, ⟨some "A", some 7, some "Aname"⟩])
        "B" = some (7, "Bname") ∧
    ("Aname" : String) ≠ "Bname" := by
  exact ⟨by decide, by decide, by decide, by decide⟩

/-- C7 amended: for a shared hash the display name stored in
`hash_to_name` (hence in `HASH_TO_DISPLAY_NAME`) is that of the record
occurring *last in source iteration order* (each insertion overwrites the
previous one), not the later identifier in ascending sort order; and
every identifier in the table appears exactly once in `NAME_TO_HASH`
(the emitted name sequence is a permutation of the duplicate-free key
set of `device_map`). -/
theorem C7_last_insertion_wins (pages : List Page) (h : Int) :
    dget (hash_to_name pages) h =
      (((validRecs pages).reverse.find? (fun r => decide (r.2.1 = h))).map
        (fun r => r.2.2)) ∧
    (keys (device_map pages)).Nodup ∧
    ((name_to_hash_entries (device_map pages)).map Prod.fst).Perm
      (keys (device_map pages)) ∧
    ((name_to_hash_entries (device_map pages)).map Prod.fst).Nodup := by
  have hknodup : (keys (device_map pages)).Nodup := by
    rw [device_map_eq]
    exact nodup_keys_dfold _ _ _ (by simp [keys])
  have hperm : ((name_to_hash_entries (device_map pages)).map Prod.fst).Perm
      (keys (device_map pages)) := by
    have hmm : (name_to_hash_entries (device_map pages)).map Prod.fst
        = pySorted (keys (device_map pages)) := by
      unfold name_to_hash_entries
      rw [List.map_map]
      have hid : (Prod.fst ∘ fun n =>
          (n, ((dget (device_map pages) n).getD (0, "")).1)) = id := rfl
      rw [hid, List.map_id]
    rw [hmm]
    exact List.perm_insertionSort strLe _
  refine ⟨?_, hknodup, hperm, hperm.nodup_iff.mpr hknodup⟩
  rw [hash_to_name_eq, dget_dfold]
  cases hf : (validRecs pages).reverse.find? (fun r => decide (r.2.1 = h)) with
  | none => rfl
  | some r => rfl

/-- C8: if the source artifact is absent or unparsable, the run fails
before any output is produced — in both scripts the source is read and
parsed before the output file is even opened, so a Source Loader failure
writes nothing; a successful run writes exactly one artifact per
script. -/
theorem C8_abort_before_write :
    (run_generate none = Except.error "SourceUnavailable" ∧
      generate_writes none = []) ∧
    (run_update none = Except.error "SourceUnavailable" ∧
      update_writes none = []) ∧
    (∀ d, generate_writes (some d) =
      [("./output/stationpedia.txt", text_output d)]) ∧
    (∀ pages, (update_writes (some pages)).length = 1) :=
  ⟨⟨rfl, rfl⟩, ⟨rfl, rfl⟩, fun _ => rfl, fun _ => rfl⟩

/-- C10: in the code artifact, the hash paired with each identifier is
taken verbatim from the source record's `PrefabHash` field — every
`device_map` entry's hash comes from a source page, no CRC-32 is computed
by `update_device_hashes.py`, and nothing checks the field against
CRC-32: a source claiming hash `42` for `"DeviceA"` is emitted as-is even
though `42` is neither the unsigned nor the signed CRC-32 of
`"DeviceA"`. -/
theorem C10_hash_verbatim :
    (∀ (pages : List Page) (n : String) (hv : Int) (dv : String),
      (n, hv, dv) ∈ device_map pages →
      ∃ p ∈ pages, p.prefabName = some n ∧ p.prefabHash = some hv) ∧
    device_map [⟨some "DeviceA", some 42, some "T"⟩] = [("DeviceA", 42, "T")] ∧
    (42 : Int) ≠ (unsigned_hash "DeviceA" : Int) ∧
    (42 : Int) ≠ signed_hash (unsigned_hash "DeviceA") := by
  refine ⟨?_, by decide, by decide, by decide⟩
  intro pages n hv dv hmem
  rw [device_map_eq] at hmem
  rcases mem_dfold _ _ hmem with h | h
  · simp at h
  · obtain ⟨r, hr, hx⟩ := h
    obtain ⟨a, b, c⟩ := r
    simp only [Prod.mk.injEq] at hx
    obtain ⟨hn, hhv, hdv⟩ := hx
    subst hn
    subst hhv
    exact validRecs_source hr

/-- Witness for C10 at the one-page source with hash field `42`. -/
theorem C10_witness :
    ∃ p ∈ [(⟨some "DeviceA", some 42, some "T"⟩ : Page)],
      p.prefabName = some "DeviceA" ∧ p.prefabHash = some 42 :=
  C10_hash_verbatim.1 [⟨some "DeviceA", some 42, some "T"⟩] "DeviceA" 42 "T"
    (by decide)
